import Mathlib

/-!
Verification of ChronoCapture (src/main.py): a shallow embedding of the recorder's
frame naming, the `archive_hour` compaction step, and the `cleanup_hour_folders`
retention pass, together with theorems settling the specification's claims.
-/

namespace ChronoCapture

/-- One decimal digit rendered as a character, as Python decimal formatting does. -/
def digitChar (d : Nat) : Char := Char.ofNat (48 + d)

/-- Decimal digits of a natural number, most significant first.  Fuel-based recursion;
the fuel always strictly exceeds the number of divisions by ten that can occur. -/
def natDigitsAux : Nat → Nat → List Nat
  | 0, _ => []
  | fuel + 1, n => if n < 10 then [n] else natDigitsAux fuel (n / 10) ++ [n % 10]

/-- Decimal digits of `n`, most significant first; embeds Python `str(n)` formatting. -/
def natDigits (n : Nat) : List Nat := natDigitsAux (n + 1) n

/-- Value of a most-significant-first digit list. -/
def digitsVal : List Nat → Nat
  | [] => 0
  | d :: t => d * 10 ^ t.length + digitsVal t

/-- Left-pad a digit list with zeros to width `k`; embeds Python `f"{m:06d}"` padding. -/
def padDigits (k : Nat) (l : List Nat) : List Nat := List.replicate (k - l.length) 0 ++ l

/-- Frame filename written by `run_recorder`: `f"{unix_seconds}{microseconds:06d}.png"`. -/
def frameName (secs micro : Nat) : String :=
  String.mk ((natDigits secs).map digitChar ++ (padDigits 6 (natDigits micro)).map digitChar
    ++ ".png".data)

/-- `resized_img.save(screenshot_filename, ...)` in `run_recorder`: writing a frame file
into the bucket directory; an existing file at the same path is silently replaced. -/
def save_frame (store : String → Option String) (name payload : String) :
    String → Option String :=
  fun n => if n = name then some payload else store n

/-- Modelled from the Python standard library behaviour relied on by `archive_hour`:
the proleptic-Gregorian conversion performed by
`datetime.fromtimestamp(unix_seconds, timezone.utc)` (civil date from days since
1970-01-01, standard era-based algorithm). -/
def daysToCivil (days : Nat) : Nat × Nat × Nat :=
  let z := days + 719468
  let era := z / 146097
  let doe := z % 146097
  let yoe := (doe - doe / 1460 + doe / 36524 - doe / 146096) / 365
  let y := yoe + era * 400
  let doy := doe - (365 * yoe + yoe / 4 - yoe / 100)
  let mp := (5 * doy + 2) / 153
  let d := doy - (153 * mp + 2) / 5 + 1
  let m := if mp < 10 then mp + 3 else mp - 9
  (if m ≤ 2 then y + 1 else y, m, d)

/-- `n` rendered as decimal characters, zero-padded to width `k`. -/
def padChars (k : Nat) (n : Nat) : List Char := (padDigits k (natDigits n)).map digitChar

/-- `dt.strftime("%Y-%m-%d %H:%M:%S.%f")` for the UTC instant `secs` seconds after the
epoch, with the microsecond field replaced by `micro` (as `archive_hour` does via
`dt.replace(microsecond=...)`). -/
def formatTimestamp (secs micro : Nat) : String :=
  let c := daysToCivil (secs / 86400)
  let rem := secs % 86400
  String.mk (padChars 4 c.1 ++ ('-' :: padChars 2 c.2.1) ++ ('-' :: padChars 2 c.2.2) ++
    (' ' :: padChars 2 (rem / 3600)) ++ (':' :: padChars 2 (rem % 3600 / 60)) ++
    (':' :: padChars 2 (rem % 60)) ++ ('.' :: padChars 6 micro))

/-- Base component of `os.path.splitext`: drop the last dot-suffix, unless every
character before the last dot is itself a dot. -/
def splitextBase (l : List Char) : List Char :=
  match l.reverse.findIdx? (fun c => c = '.') with
  | none => l
  | some j =>
    let i := l.length - 1 - j
    if (l.take i).all (fun c => c = '.') then l else l.take i

/-- `int(base[:10])` and `int(base[10:16])` in `archive_hour`, restricted to the
digits-only inputs frame files produce; any parse failure is `none` (the `except`
path of the source). -/
def parseTimestamp (base : List Char) : Option (Nat × Nat) :=
  let secPart := base.take 10
  let microPart := (base.drop 10).take 6
  if secPart ≠ [] ∧ secPart.all Char.isDigit ∧ microPart ≠ [] ∧ microPart.all Char.isDigit
  then some (digitsVal (secPart.map (fun c => c.toNat - 48)),
             digitsVal (microPart.map (fun c => c.toNat - 48)))
  else none

/-- Chapter title computed in `archive_hour`: the filename parsed back to an instant and
formatted, or the literal fallback written on any parse failure. -/
def chapterTitle (fname : String) : String :=
  match parseTimestamp (splitextBase fname.data) with
  | some sm => formatTimestamp sm.1 sm.2
  | none => "InvalidTimestamp"

/-- Python `round` (half rounds to even) on an exact rational. -/
def pyRound (q : ℚ) : ℤ :=
  let f := ⌊q⌋
  if q - f < 1 / 2 then f
  else if (1 : ℚ) / 2 < q - f then f + 1
  else if f % 2 = 0 then f else f + 1

/-- One `[CHAPTER]` block of the ffmetadata file: start and end in integer microseconds
(`TIMEBASE=1/1000000`) plus the title line. -/
structure Chapter where
  start_us : ℤ
  end_us : ℤ
  title : String
deriving DecidableEq

/-- The `.png` filename filter of `archive_hour` (`f.endswith(".png")`). -/
def isPngName (f : String) : Bool := List.isSuffixOf ".png".data f.data

/-- Code-point lexicographic strict comparison of character lists, the order Python uses
on strings. -/
def strLtb : List Char → List Char → Bool
  | [], [] => false
  | [], _ :: _ => true
  | _ :: _, [] => false
  | a :: as, b :: bs => if a < b then true else if b < a then false else strLtb as bs

/-- The non-strict order `Python sort` arranges strings by: `a` may precede `b` exactly
when `b` is not strictly below `a`. -/
def pyStrLe (a b : String) : Prop := strLtb b.data a.data = false

instance : DecidableRel pyStrLe := fun a b => decEq (strLtb b.data a.data) false

/-- Chapter blocks written by `archive_hour`: frame `i` spans
`[i*frame_duration, (i+1)*frame_duration)`, the last frame ends at
`total_frames * frame_duration`; offsets are rounded to integer microseconds. -/
def buildChapters (files : List String) (fd : ℚ) : List Chapter :=
  let n := files.length
  files.enum.map (fun p =>
    { start_us := pyRound ((p.1 : ℚ) * fd * 1000000)
      end_us := pyRound ((if p.1 < n - 1 then ((p.1 : ℚ) + 1) * fd else (n : ℚ) * fd) * 1000000)
      title := chapterTitle p.2 })

/-- The chapter manifest `archive_hour` produces from a directory listing: keep the
`.png` names, sort them, and time them at `1 / effective_fps` seconds per frame. -/
def chapterManifest (files : List String) (effective_fps : ℚ) : List Chapter :=
  buildChapters ((files.filter isPngName).insertionSort pyStrLe) (1 / effective_fps)

/-- `output_file = os.path.join(root_dir, day, f"{hour}.mp4")` in `archive_hour`. -/
def output_file (root_dir day hour : String) : String :=
  root_dir ++ "/" ++ day ++ "/" ++ hour ++ ".mp4"

/-- A filesystem path below the recorder's root, as a list of segments. -/
abbrev FPath := List String

/-- Existence-level view of the on-disk tree below the root: each entry is a path plus
whether it is a directory.  File contents are not tracked (no claim needs them). -/
structure FS where
  entries : List (FPath × Bool)
deriving DecidableEq

/-- `os.path.exists`. -/
def FS.pathExists (fs : FS) (p : FPath) : Bool :=
  fs.entries.any (fun e => decide (e.1 = p))

/-- `os.path.isdir`. -/
def FS.isDirAt (fs : FS) (p : FPath) : Bool :=
  fs.entries.any (fun e => decide (e.1 = p ∧ e.2 = true))

/-- `os.listdir`: names of the immediate children of `p`. -/
def FS.childNames (fs : FS) (p : FPath) : List String :=
  fs.entries.filterMap (fun e =>
    if e.1.take p.length = p then
      match e.1.drop p.length with
      | [n] => some n
      | _ => none
    else none)

/-- `open(path, "w")` at existence level: create the file if absent (content is not
tracked by this model). -/
def FS.writeFile (fs : FS) (p : FPath) : FS :=
  if fs.pathExists p then fs else ⟨(p, false) :: fs.entries⟩

/-- `os.remove path`. -/
def FS.removeFile (fs : FS) (p : FPath) : FS :=
  ⟨fs.entries.filter (fun e => decide (e.1 ≠ p))⟩

/-- `shutil.rmtree(path, ignore_errors=True)`: drop the directory and everything
below it. -/
def FS.removeTree (fs : FS) (p : FPath) : FS :=
  ⟨fs.entries.filter (fun e => decide (¬ p <+: e.1))⟩

/-- Observable actions of the compaction and retention code, recorded in order.  The
boolean argument of `removeDir` records the live `os.path.exists` check of the bucket's
artifact at the moment the raw directory is removed. -/
inductive Ev where
  | encoderRun (day hour : String) (ok : Bool)
  | removeDir (day hour : String) (artifactPresent : Bool)
  | warnSkip (day hour : String)
  | warnEmpty (day hour : String)
  | warnMissing (day hour : String)
deriving DecidableEq, Repr

/-- Result of `archive_hour`: the filesystem afterwards, the returned boolean, and the
recorded events. -/
structure ArchiveOut where
  fs : FS
  ok : Bool
  events : List Ev

/-- The artifact path `os.path.join(root_dir, day, f"{hour}.mp4")`, root-relative. -/
def videoPath (day hour : String) : FPath := [day, hour ++ ".mp4"]

/-- `archive_hour` at filesystem level: bail out on a missing folder or an empty `.png`
listing; otherwise materialise the two temporary files, run the encoder (the oracle
argument), on success produce `{hour}.mp4` in the day folder, and remove the temporary
files on both paths.  The manifest contents are modelled by `chapterManifest`. -/
def archive_hour (fs : FS) (encoder : String → String → Bool) (day hour : String) :
    ArchiveOut :=
  if fs.pathExists [day, hour] then
    if ((fs.childNames [day, hour]).filter isPngName).isEmpty then
      ⟨fs, false, [Ev.warnEmpty day hour]⟩
    else
      let fs1 := (fs.writeFile [day, hour, "filelist.txt"]).writeFile [day, hour, "chapters.txt"]
      let ok := encoder day hour
      let fs2 := if ok then fs1.writeFile (videoPath day hour) else fs1
      ⟨(fs2.removeFile [day, hour, "filelist.txt"]).removeFile [day, hour, "chapters.txt"], ok,
        [Ev.encoderRun day hour ok]⟩
  else ⟨fs, false, [Ev.warnMissing day hour]⟩

/-- Per-hour body of the cleanup loop: delete the bucket when its artifact exists,
otherwise archive on demand first and delete only on success; on failure warn and keep
the bucket. -/
def processHour (fs : FS) (encoder : String → String → Bool) (day hour : String) :
    FS × List Ev :=
  if fs.pathExists (videoPath day hour) then
    (fs.removeTree [day, hour], [Ev.removeDir day hour (fs.pathExists (videoPath day hour))])
  else if (archive_hour fs encoder day hour).ok then
    ((archive_hour fs encoder day hour).fs.removeTree [day, hour],
      (archive_hour fs encoder day hour).events ++
        [Ev.removeDir day hour
          ((archive_hour fs encoder day hour).fs.pathExists (videoPath day hour))])
  else
    ((archive_hour fs encoder day hour).fs,
      (archive_hour fs encoder day hour).events ++ [Ev.warnSkip day hour])

/-- The hour-folder name filter of `cleanup_hour_folders`: `h.isdigit() and len(h) == 2`. -/
def isHourFolderName (h : String) : Bool :=
  h.data.all Char.isDigit && decide (h.data.length = 2)

def isLeapYear (y : Nat) : Bool :=
  (decide (y % 4 = 0) && decide (y % 100 ≠ 0)) || decide (y % 400 = 0)

def daysInMonth (y m : Nat) : Nat :=
  if m = 2 then (if isLeapYear y then 29 else 28)
  else if m = 4 ∨ m = 6 ∨ m = 9 ∨ m = 11 then 30
  else 31

/-- Split a character list on the dash character. -/
def splitOnDash : List Char → List (List Char)
  | [] => [[]]
  | c :: t =>
    if c = '-' then [] :: splitOnDash t
    else
      match splitOnDash t with
      | [] => [[c]]
      | g :: gs => (c :: g) :: gs

/-- Numeric value of a digit character list. -/
def charsVal (l : List Char) : Nat := digitsVal (l.map (fun c => c.toNat - 48))

/-- `datetime.strptime(day, "%Y-%m-%d")` succeeding: a 4-digit year and 1-2 digit month
and day fields in calendar range. -/
def validDate (s : String) : Bool :=
  match splitOnDash s.data with
  | [y, m, d] =>
    decide (y.length = 4) && y.all Char.isDigit &&
    decide (1 ≤ m.length) && decide (m.length ≤ 2) && m.all Char.isDigit &&
    decide (1 ≤ d.length) && decide (d.length ≤ 2) && d.all Char.isDigit &&
    decide (1 ≤ charsVal y) && decide (1 ≤ charsVal m) && decide (charsVal m ≤ 12) &&
    decide (1 ≤ charsVal d) &&
    decide (charsVal d ≤ daysInMonth (charsVal y) (charsVal m))
  | _ => false

/-- Slice of the sorted hour list the cleanup loop processes: for today, every hour
except the current one and the `archive_limit` most recent (Python
`archivable[:-archive_limit]`, empty when the limit is zero); for a past day, every
hour. -/
def selectToCleanup (sortedHours : List String) (isToday : Bool) (currentHour : String)
    (limit : Nat) : List String :=
  if isToday then
    let archivable := sortedHours.filter (fun h => decide (h ≠ currentHour))
    if limit < archivable.length then
      if limit = 0 then [] else archivable.take (archivable.length - limit)
    else []
  else sortedHours

/-- One step of a loop that threads the filesystem through `f` while accumulating the
recorded events. -/
def accumStep (f : FS → String → FS × List Ev) (acc : FS × List Ev) (x : String) :
    FS × List Ev :=
  ((f acc.1 x).1, acc.2 ++ (f acc.1 x).2)

/-- Per-day body of `cleanup_hour_folders`: skip non-directories and names that do not
parse as dates, list the two-digit hour subdirectories sorted ascending, select the
stale ones, and process each with `processHour`. -/
def processDay (fs : FS) (encoder : String → String → Bool) (todayStr currentHour : String)
    (limit : Nat) (day : String) : FS × List Ev :=
  if fs.isDirAt [day] && validDate day then
    let hour_folders := ((fs.childNames [day]).filter
      (fun h => fs.isDirAt [day, h] && isHourFolderName h)).insertionSort pyStrLe
    if hour_folders.isEmpty then (fs, [])
    else
      (selectToCleanup hour_folders (decide (day = todayStr)) currentHour limit).foldl
        (accumStep (fun s hour => processHour s encoder day hour)) (fs, [])
  else (fs, [])

/-- `cleanup_hour_folders`: iterate over the root's day folders and archive-then-delete
each stale hour bucket.  `todayStr` and `currentHour` stand for the `datetime.now`
reads of the source. -/
def cleanup_hour_folders (fs : FS) (encoder : String → String → Bool)
    (todayStr currentHour : String) (limit : Nat) : FS × List Ev :=
  (fs.childNames []).foldl
    (accumStep (fun s day => processDay s encoder todayStr currentHour limit day)) (fs, [])

/-- Safety predicate for an event trace: every directory removal happened while the
bucket's artifact was present. -/
def RemovalsConfirmed (evs : List Ev) : Prop :=
  ∀ d h b, Ev.removeDir d h b ∈ evs → b = true

/-- Every entry of `before` missing from `after` lies below some valid
`<day>/<two-digit hour>` bucket path. -/
def DeletedEntriesShaped (before after : FS) : Prop :=
  ∀ e, e ∈ before.entries → e ∉ after.entries →
    ∃ day hour, validDate day = true ∧ isHourFolderName hour = true ∧ [day, hour] <+: e.1

/-! ### Concrete fixtures used by witnesses and counterexamples -/

/-- A past day whose hour bucket already has its artifact. -/
def fsC1 : FS := ⟨[(["2024-01-01"], true), (["2024-01-01", "05"], true),
  (["2024-01-01", "05", "1704103200000000.png"], false), (["2024-01-01", "05.mp4"], false)]⟩

/-- A past day with an hour bucket that contains no frame files and has no artifact. -/
def fsC4 : FS := ⟨[(["2024-01-01"], true), (["2024-01-01", "05"], true)]⟩

/-- A day with hour buckets 08, 09, 10, all already archived. -/
def fsC5 : FS := ⟨[(["2024-01-02"], true),
  (["2024-01-02", "08"], true), (["2024-01-02", "08.mp4"], false),
  (["2024-01-02", "09"], true), (["2024-01-02", "09.mp4"], false),
  (["2024-01-02", "10"], true), (["2024-01-02", "10.mp4"], false)]⟩

/-- A past day with a non-empty hour bucket and no artifact. -/
def fsC6 : FS := ⟨[(["2024-01-01"], true), (["2024-01-01", "05"], true),
  (["2024-01-01", "05", "1704103200000000.png"], false)]⟩

/-- A past day with a non-empty, not yet archived hour bucket that also contains a
pre-existing file named like the compactor's temporary listing file. -/
def fsC10 : FS := ⟨[(["2024-01-01"], true), (["2024-01-01", "05"], true),
  (["2024-01-01", "05", "1704103200000000.png"], false),
  (["2024-01-01", "05", "filelist.txt"], false)]⟩

/-! ### Filesystem lemmas -/

theorem pathExists_iff {fs : FS} {p : FPath} :
    fs.pathExists p = true ↔ ∃ b, (p, b) ∈ fs.entries := by
  unfold FS.pathExists
  rw [List.any_eq_true]
  constructor
  · rintro ⟨⟨q, b⟩, he, hd⟩
    rw [decide_eq_true_iff] at hd
    subst hd
    exact ⟨b, he⟩
  · rintro ⟨b, hb⟩
    exact ⟨(p, b), hb, by simp⟩

theorem pathExists_eq_false_iff {fs : FS} {p : FPath} :
    fs.pathExists p = false ↔ ∀ b, (p, b) ∉ fs.entries := by
  rw [← Bool.not_eq_true, pathExists_iff]
  push_neg
  rfl

theorem mem_removeFile {fs : FS} {p : FPath} {x : FPath × Bool} :
    x ∈ (fs.removeFile p).entries ↔ x ∈ fs.entries ∧ x.1 ≠ p := by
  simp [FS.removeFile, List.mem_filter]

theorem mem_removeTree {fs : FS} {p : FPath} {x : FPath × Bool} :
    x ∈ (fs.removeTree p).entries ↔ x ∈ fs.entries ∧ ¬ p <+: x.1 := by
  simp [FS.removeTree, List.mem_filter]

theorem mem_writeFile_of_mem {fs : FS} {p : FPath} {x : FPath × Bool}
    (hx : x ∈ fs.entries) : x ∈ (fs.writeFile p).entries := by
  unfold FS.writeFile
  split
  · exact hx
  · exact List.mem_cons_of_mem _ hx

theorem pathExists_writeFile_self (fs : FS) (p : FPath) :
    (fs.writeFile p).pathExists p = true := by
  unfold FS.writeFile
  split
  · assumption
  · exact pathExists_iff.mpr ⟨false, List.mem_cons_self _ _⟩

theorem pathExists_writeFile_of_ne (fs : FS) (p q : FPath) (h : q ≠ p) :
    (fs.writeFile p).pathExists q = fs.pathExists q := by
  unfold FS.writeFile
  split
  · rfl
  · rw [Bool.eq_iff_iff, pathExists_iff, pathExists_iff]
    constructor
    · rintro ⟨b, hb⟩
      rcases List.mem_cons.mp hb with heq | hm
      · simp only [Prod.mk.injEq] at heq
        exact absurd heq.1 h
      · exact ⟨b, hm⟩
    · rintro ⟨b, hb⟩
      exact ⟨b, List.mem_cons_of_mem _ hb⟩

theorem pathExists_removeFile_of_ne (fs : FS) (p q : FPath) (h : q ≠ p) :
    (fs.removeFile p).pathExists q = fs.pathExists q := by
  rw [Bool.eq_iff_iff, pathExists_iff, pathExists_iff]
  constructor
  · rintro ⟨b, hb⟩
    exact ⟨b, (mem_removeFile.mp hb).1⟩
  · rintro ⟨b, hb⟩
    exact ⟨b, mem_removeFile.mpr ⟨hb, h⟩⟩

theorem pathExists_removeTree_under (fs : FS) (p q : FPath) (h : p <+: q) :
    (fs.removeTree p).pathExists q = false := by
  rw [pathExists_eq_false_iff]
  intro b hb
  exact absurd h (mem_removeTree.mp hb).2

/-- An hour name with the artifact suffix appended differs from the bare hour name. -/
theorem append_mp4_ne (hour : String) : hour ++ ".mp4" ≠ hour := by
  intro hcontra
  have hlen := congrArg String.length hcontra
  rw [String.length_append] at hlen
  have h4 : (".mp4" : String).length = 4 := rfl
  omega

theorem videoPath_ne_bucket (day hour : String) : [day, hour] ≠ videoPath day hour := by
  intro hcontra
  have h2 : hour = hour ++ ".mp4" := by
    injection hcontra with l r
    injection r with m _
  exact append_mp4_ne hour h2.symm

/-! ### `archive_hour` branch lemmas -/

theorem archive_hour_of_missing {fs : FS} {enc : String → String → Bool} {day hour : String}
    (h : fs.pathExists [day, hour] = false) :
    archive_hour fs enc day hour = ⟨fs, false, [Ev.warnMissing day hour]⟩ := by
  simp [archive_hour, h]

theorem archive_hour_of_empty {fs : FS} {enc : String → String → Bool} {day hour : String}
    (h1 : fs.pathExists [day, hour] = true)
    (h2 : ((fs.childNames [day, hour]).filter isPngName).isEmpty = true) :
    archive_hour fs enc day hour = ⟨fs, false, [Ev.warnEmpty day hour]⟩ := by
  simp [archive_hour, h1, h2]

theorem archive_hour_of_nonempty {fs : FS} {enc : String → String → Bool} {day hour : String}
    (h1 : fs.pathExists [day, hour] = true)
    (h2 : ((fs.childNames [day, hour]).filter isPngName).isEmpty = false) :
    archive_hour fs enc day hour =
      ⟨((if enc day hour then
            ((fs.writeFile [day, hour, "filelist.txt"]).writeFile
              [day, hour, "chapters.txt"]).writeFile (videoPath day hour)
          else
            (fs.writeFile [day, hour, "filelist.txt"]).writeFile
              [day, hour, "chapters.txt"]).removeFile
          [day, hour, "filelist.txt"]).removeFile [day, hour, "chapters.txt"],
        enc day hour, [Ev.encoderRun day hour (enc day hour)]⟩ := by
  simp [archive_hour, h1, h2]

theorem archive_events_shape (fs : FS) (enc : String → String → Bool) (day hour : String) :
    (archive_hour fs enc day hour).events = [Ev.warnMissing day hour] ∨
    (archive_hour fs enc day hour).events = [Ev.warnEmpty day hour] ∨
    (archive_hour fs enc day hour).events = [Ev.encoderRun day hour (enc day hour)] := by
  cases h1 : fs.pathExists [day, hour]
  · left
    rw [archive_hour_of_missing h1]
  · cases h2 : ((fs.childNames [day, hour]).filter isPngName).isEmpty
    · right; right
      rw [archive_hour_of_nonempty h1 h2]
    · right; left
      rw [archive_hour_of_empty h1 h2]

theorem archive_events_no_removeDir (fs : FS) (enc : String → String → Bool)
    (day hour d h : String) (b : Bool) :
    Ev.removeDir d h b ∉ (archive_hour fs enc day hour).events := by
  rcases archive_events_shape fs enc day hour with he | he | he <;> rw [he] <;> simp

theorem archive_ok_artifact (fs : FS) (enc : String → String → Bool) (day hour : String)
    (hok : (archive_hour fs enc day hour).ok = true) :
    (archive_hour fs enc day hour).fs.pathExists (videoPath day hour) = true := by
  cases h1 : fs.pathExists [day, hour]
  · rw [archive_hour_of_missing h1] at hok
    cases hok
  · cases h2 : ((fs.childNames [day, hour]).filter isPngName).isEmpty
    · rw [archive_hour_of_nonempty h1 h2] at hok ⊢
      simp only at hok ⊢
      rw [hok, if_pos rfl]
      rw [pathExists_removeFile_of_ne _ _ _ (by simp [videoPath]),
        pathExists_removeFile_of_ne _ _ _ (by simp [videoPath]),
        pathExists_writeFile_self]
    · rw [archive_hour_of_empty h1 h2] at hok
      cases hok

theorem archive_preserves_bucket (fs : FS) (enc : String → String → Bool) (day hour : String) :
    (archive_hour fs enc day hour).fs.pathExists [day, hour] = fs.pathExists [day, hour] := by
  cases h1 : fs.pathExists [day, hour]
  · rw [archive_hour_of_missing h1]
    exact h1
  · cases h2 : ((fs.childNames [day, hour]).filter isPngName).isEmpty
    · rw [archive_hour_of_nonempty h1 h2]
      simp only
      rw [pathExists_removeFile_of_ne _ _ _ (by simp),
        pathExists_removeFile_of_ne _ _ _ (by simp)]
      cases henc : enc day hour
      · rw [if_neg (by simp [henc])]
        rw [pathExists_writeFile_of_ne _ _ _ (by simp),
          pathExists_writeFile_of_ne _ _ _ (by simp)]
        exact h1
      · rw [if_pos rfl]
        rw [pathExists_writeFile_of_ne _ _ _ (videoPath_ne_bucket day hour),
          pathExists_writeFile_of_ne _ _ _ (by simp),
          pathExists_writeFile_of_ne _ _ _ (by simp)]
        exact h1
    · rw [archive_hour_of_empty h1 h2]
      exact h1

/-! ### Removal-safety lemmas -/

theorem removalsConfirmed_append {a b : List Ev} :
    RemovalsConfirmed (a ++ b) ↔ RemovalsConfirmed a ∧ RemovalsConfirmed b := by
  constructor
  · intro hc
    exact ⟨fun d h bb hm => hc d h bb (List.mem_append_left _ hm),
      fun d h bb hm => hc d h bb (List.mem_append_right _ hm)⟩
  · rintro ⟨h1, h2⟩ d h bb hm
    rcases List.mem_append.mp hm with hm | hm
    · exact h1 _ _ _ hm
    · exact h2 _ _ _ hm

theorem removalsConfirmed_nil : RemovalsConfirmed [] := by
  intro d h b hm
  exact absurd hm (List.not_mem_nil _)

theorem processHour_removalsConfirmed (fs : FS) (enc : String → String → Bool)
    (day hour : String) : RemovalsConfirmed (processHour fs enc day hour).2 := by
  intro d h b hm
  by_cases hvid : fs.pathExists (videoPath day hour) = true
  · simp only [processHour, hvid, if_true] at hm
    simp only [List.mem_singleton, Ev.removeDir.injEq] at hm
    exact hm.2.2
  · have hv : fs.pathExists (videoPath day hour) = false := by
      cases hfs : fs.pathExists (videoPath day hour)
      · rfl
      · exact absurd hfs hvid
    by_cases hok : (archive_hour fs enc day hour).ok = true
    · simp only [processHour, hv, Bool.false_eq_true, if_false, hok, if_true] at hm
      rcases List.mem_append.mp hm with hm | hm
      · exact absurd hm (archive_events_no_removeDir fs enc day hour d h b)
      · simp only [List.mem_singleton, Ev.removeDir.injEq] at hm
        rw [hm.2.2]
        exact archive_ok_artifact fs enc day hour hok
    · have ho : (archive_hour fs enc day hour).ok = false := by
        cases hfs : (archive_hour fs enc day hour).ok
        · rfl
        · exact absurd hfs hok
      simp only [processHour, hv, ho, Bool.false_eq_true, if_false] at hm
      rcases List.mem_append.mp hm with hm | hm
      · exact absurd hm (archive_events_no_removeDir fs enc day hour d h b)
      · simp at hm

theorem foldl_removalsConfirmed (f : FS → String → FS × List Ev)
    (hf : ∀ fs x, RemovalsConfirmed (f fs x).2) (l : List String) :
    ∀ (fs : FS) (evs : List Ev), RemovalsConfirmed evs →
      RemovalsConfirmed (l.foldl (accumStep f) (fs, evs)).2 := by
  induction l with
  | nil => intro fs evs h; exact h
  | cons x t ih =>
    intro fs evs h
    rw [List.foldl_cons]
    have hstep : accumStep f (fs, evs) x = ((f fs x).1, evs ++ (f fs x).2) := rfl
    rw [hstep]
    exact ih _ _ (removalsConfirmed_append.mpr ⟨h, hf fs x⟩)

theorem processDay_removalsConfirmed (fs : FS) (enc : String → String → Bool)
    (todayStr currentHour : String) (limit : Nat) (day : String) :
    RemovalsConfirmed (processDay fs enc todayStr currentHour limit day).2 := by
  simp only [processDay]
  split
  · split
    · exact removalsConfirmed_nil
    · exact foldl_removalsConfirmed _
        (fun s hour => processHour_removalsConfirmed s enc day hour) _ fs []
        removalsConfirmed_nil
  · exact removalsConfirmed_nil

/-! ### Claim C1 -/

/-- C1: whenever the retention pass removes a bucket's raw directory, the live
`os.path.exists` check of that bucket's artifact — recorded on the `removeDir` event at
the moment of removal — is `true`: either the artifact pre-existed, or the on-demand
`archive_hour` immediately before reported success and wrote it.  No directory is
removed while its bucket lacks a confirmed artifact. -/
theorem c1_removal_requires_artifact (fs : FS) (enc : String → String → Bool)
    (todayStr currentHour : String) (limit : Nat) (day hour : String) (b : Bool)
    (hmem : Ev.removeDir day hour b
      ∈ (cleanup_hour_folders fs enc todayStr currentHour limit).2) :
    b = true := by
  unfold cleanup_hour_folders at hmem
  exact foldl_removalsConfirmed _
    (fun s d => processDay_removalsConfirmed s enc todayStr currentHour limit d) _ fs []
    removalsConfirmed_nil day hour b hmem

/-- C1, witness: a concrete retention pass that does remove a bucket directory, with the
artifact-present flag forced to `true` by the theorem. -/
theorem c1_witness :
    Ev.removeDir "2024-01-01" "05" true
      ∈ (cleanup_hour_folders fsC1 (fun _ _ => false) "2024-01-02" "10" 1).2 ∧
    true = true :=
  ⟨by decide, c1_removal_requires_artifact fsC1 (fun _ _ => false) "2024-01-02" "10" 1
    "2024-01-01" "05" true (by decide)⟩

/-! ### Claim C2 -/

unseal Rat.add Rat.mul Rat.inv Rat.sub in
/-- C2, counterexample: for the three frames at 10:00:00.000000 / .500000 / .750000 UTC
(2024-01-01) at effective rate 2 frames per second, the manifest offsets are
[0, 0.5), [0.5, 1.0), [1.0, 1.5) seconds — the third chapter ends at 1.5 s
(`total_frames * frame_duration`), not at 1.0 s as the claim states. -/
theorem c2_counterexample :
    (chapterManifest ["1704103200000000.png", "1704103200500000.png", "1704103200750000.png"] 2).map
        (fun c => (c.start_us, c.end_us))
      = [(0, 500000), (500000, 1000000), (1000000, 1500000)] ∧
    (chapterManifest ["1704103200000000.png", "1704103200500000.png", "1704103200750000.png"] 2).map
        (fun c => (c.start_us, c.end_us))
      ≠ [(0, 500000), (500000, 1000000), (1000000, 1000000)] := by
  decide

unseal Rat.add Rat.mul Rat.inv Rat.sub in
/-- C2, amended: the manifest has exactly 3 entries with offsets [0, 0.5), [0.5, 1.0),
[1.0, 1.5) seconds (the last end is `frame_count * frame_duration`), and each title is
the frame's instant formatted as `YYYY-MM-DD HH:MM:SS.ffffff`. -/
theorem c2_amended :
    chapterManifest ["1704103200000000.png", "1704103200500000.png", "1704103200750000.png"] 2
      = [⟨0, 500000, "2024-01-01 10:00:00.000000"⟩,
         ⟨500000, 1000000, "2024-01-01 10:00:00.500000"⟩,
         ⟨1000000, 1500000, "2024-01-01 10:00:00.750000"⟩] := by
  decide

/-! ### Claim C5 -/

/-- C5: with retention limit 2 at hour granularity, hour buckets 08, 09, 10 in today's
folder and active hour 11, exactly ["08"] is selected for cleanup; a full retention
pass on such a state removes bucket 08 (artifact confirmed present) and keeps 09 and
10. -/
theorem c5_selection :
    selectToCleanup (["08", "09", "10"].insertionSort pyStrLe) true "11" 2 = ["08"] ∧
    (cleanup_hour_folders fsC5 (fun _ _ => false) "2024-01-02" "11" 2).2
      = [Ev.removeDir "2024-01-02" "08" true] ∧
    (cleanup_hour_folders fsC5 (fun _ _ => false) "2024-01-02" "11" 2).1.pathExists
      ["2024-01-02", "08"] = false ∧
    (cleanup_hour_folders fsC5 (fun _ _ => false) "2024-01-02" "11" 2).1.pathExists
      ["2024-01-02", "09"] = true ∧
    (cleanup_hour_folders fsC5 (fun _ _ => false) "2024-01-02" "11" 2).1.pathExists
      ["2024-01-02", "10"] = true := by
  decide

/-! ### Claim C4, counterexample -/

/-- C4, counterexample: an hour bucket with zero frame files and no artifact is NOT
purge-eligible: `archive_hour` returns failure (not a distinct non-error result), and
the retention pass skips deletion with a warning instead of deleting the bucket. -/
theorem c4_counterexample :
    (archive_hour fsC4 (fun _ _ => true) "2024-01-01" "05").ok = false ∧
    (cleanup_hour_folders fsC4 (fun _ _ => true) "2024-01-02" "10" 1).1.pathExists
      ["2024-01-01", "05"] = true ∧
    Ev.warnSkip "2024-01-01" "05"
      ∈ (cleanup_hour_folders fsC4 (fun _ _ => true) "2024-01-02" "10" 1).2 := by
  decide

/-! ### Claim C6, counterexample -/

/-- C6, counterexample: for a stale bucket without an artifact the retention pass DOES
run compaction (the encoder runs from the retention path), and when that on-demand
compaction succeeds it DOES delete the raw bucket — contradicting both parts of the
claim. -/
theorem c6_counterexample :
    Ev.encoderRun "2024-01-01" "05" true
      ∈ (cleanup_hour_folders fsC6 (fun _ _ => true) "2024-01-02" "10" 1).2 ∧
    (cleanup_hour_folders fsC6 (fun _ _ => true) "2024-01-02" "10" 1).1.pathExists
      ["2024-01-01", "05"] = false := by
  decide

/-! ### Claim C7, counterexample -/

unseal Rat.add Rat.mul Rat.inv Rat.sub in
/-- C7, counterexample: a frame file whose name does not parse is NOT excluded from the
chapter manifest: the manifest keeps one entry per `.png` file and gives the malformed
one the title `InvalidTimestamp`. -/
theorem c7_counterexample :
    (chapterManifest ["notatimestamp.png", "1704103200000000.png"] 2).map Chapter.title
      = ["2024-01-01 10:00:00.000000", "InvalidTimestamp"] ∧
    (chapterManifest ["notatimestamp.png", "1704103200000000.png"] 2).length ≠ 1 := by
  decide

/-! ### Claim C8 -/

/-- C8, counterexample: writing a second frame whose filename collides with an existing
one does not fail — the store afterwards holds the second payload at that name, i.e.
the first frame was silently overwritten rather than the write rejected. -/
theorem c8_counterexample :
    save_frame (save_frame (fun _ => none) (frameName 1704103200 0) "frameA")
        (frameName 1704103200 0) "frameB" (frameName 1704103200 0) = some "frameB" ∧
    (some "frameB" : Option String) ≠ some "frameA" := by
  decide

/-- C8, amended: a colliding frame write silently overwrites: after two writes to the
same derived filename the stored payload is the second one, for every prior store
state and every pair of payloads; no error path exists. -/
theorem c8_amended (store : String → Option String) (secs micro : Nat) (p1 p2 : String) :
    save_frame (save_frame store (frameName secs micro) p1) (frameName secs micro) p2
      (frameName secs micro) = some p2 := by
  simp [save_frame]

/-! ### Claim C10, counterexample -/

/-- C10, counterexample: the retention pass deleted the pre-existing file
`root/2024-01-01/05/filelist.txt` (a path that is not a `root/<day>/<hour>` directory)
while the bucket directory `root/2024-01-01/05` itself was NOT removed — so retention
deletes entries other than hour-bucket directories. -/
theorem c10_counterexample :
    fsC10.pathExists ["2024-01-01", "05", "filelist.txt"] = true ∧
    (cleanup_hour_folders fsC10 (fun _ _ => false) "2024-01-02" "10" 1).1.pathExists
      ["2024-01-01", "05", "filelist.txt"] = false ∧
    (cleanup_hour_folders fsC10 (fun _ _ => false) "2024-01-02" "10" 1).1.pathExists
      ["2024-01-01", "05"] = true := by
  decide

/-! ### Claim C4, amended -/

/-- C4, amended: for a bucket listing with zero `.png` frame files, `archive_hour`
returns failure (the same boolean as a compaction failure, there is no distinct
non-error result), never invokes the external encoder, and leaves the filesystem
unchanged; the retention pass deletes such a bucket only when its artifact already
exists (then indeed with no compaction step). -/
theorem c4_amended (fs : FS) (enc : String → String → Bool) (day hour : String)
    (hEmpty : (fs.childNames [day, hour]).filter isPngName = []) :
    (archive_hour fs enc day hour).ok = false ∧
    (∀ d h ok, Ev.encoderRun d h ok ∉ (archive_hour fs enc day hour).events) ∧
    (archive_hour fs enc day hour).fs = fs ∧
    (fs.pathExists (videoPath day hour) = true →
      (processHour fs enc day hour).1.pathExists [day, hour] = false ∧
      (processHour fs enc day hour).2
        = [Ev.removeDir day hour (fs.pathExists (videoPath day hour))]) := by
  have harch : archive_hour fs enc day hour = ⟨fs, false, [Ev.warnEmpty day hour]⟩ ∨
      archive_hour fs enc day hour = ⟨fs, false, [Ev.warnMissing day hour]⟩ := by
    cases h1 : fs.pathExists [day, hour]
    · right
      exact archive_hour_of_missing h1
    · left
      exact archive_hour_of_empty h1 (by rw [hEmpty]; rfl)
  refine ⟨?_, ?_, ?_, ?_⟩
  · rcases harch with h | h <;> rw [h]
  · intro d h ok hm
    rcases harch with ha | ha <;> rw [ha] at hm <;> simp at hm
  · rcases harch with h | h <;> rw [h]
  · intro hvid
    constructor
    · simp only [processHour, hvid, if_true]
      exact pathExists_removeTree_under _ _ _ ⟨[], List.append_nil _⟩
    · simp only [processHour, hvid, if_true]

/-- C4, witness: a concrete bucket with zero frame files on which the amended claim's
hypothesis holds and `archive_hour` reports failure. -/
theorem c4_witness :
    (fsC4.childNames ["2024-01-01", "05"]).filter isPngName = [] ∧
    (archive_hour fsC4 (fun _ _ => true) "2024-01-01" "05").ok = false :=
  ⟨by decide, (c4_amended fsC4 (fun _ _ => true) "2024-01-01" "05" (by decide)).1⟩

/-! ### Claim C6, amended -/

/-- C6, amended: when a stale bucket's artifact is missing, the retention pass first
attempts on-demand compaction; if that attempt fails the bucket directory is kept
(never silently deleted), a skip warning is emitted, and no removal event for the
bucket occurs. -/
theorem c6_amended (fs : FS) (enc : String → String → Bool) (day hour : String)
    (hvid : fs.pathExists (videoPath day hour) = false)
    (hfail : (archive_hour fs enc day hour).ok = false) :
    (processHour fs enc day hour).1.pathExists [day, hour] = fs.pathExists [day, hour] ∧
    Ev.warnSkip day hour ∈ (processHour fs enc day hour).2 ∧
    (∀ b, Ev.removeDir day hour b ∉ (processHour fs enc day hour).2) := by
  have hph : processHour fs enc day hour
      = ((archive_hour fs enc day hour).fs,
         (archive_hour fs enc day hour).events ++ [Ev.warnSkip day hour]) := by
    simp only [processHour, hvid, hfail, Bool.false_eq_true, if_false]
  rw [hph]
  refine ⟨archive_preserves_bucket fs enc day hour,
    List.mem_append_right _ (List.mem_singleton_self _), ?_⟩
  intro b hb
  rcases List.mem_append.mp hb with hb | hb
  · exact absurd hb (archive_events_no_removeDir fs enc day hour day hour b)
  · simp at hb

/-- C6, witness: a concrete stale bucket with frames but no artifact, processed with a
failing encoder: the bucket survives and the skip warning is emitted. -/
theorem c6_witness :
    (processHour fsC6 (fun _ _ => false) "2024-01-01" "05").1.pathExists ["2024-01-01", "05"]
      = fsC6.pathExists ["2024-01-01", "05"] ∧
    Ev.warnSkip "2024-01-01" "05" ∈ (processHour fsC6 (fun _ _ => false) "2024-01-01" "05").2 := by
  have h := c6_amended fsC6 (fun _ _ => false) "2024-01-01" "05" (by decide) (by decide)
  exact ⟨h.1, h.2.1⟩

/-! ### Deleted-entry shape lemmas -/

theorem deletedShaped_refl (fs : FS) : DeletedEntriesShaped fs fs := by
  intro e he hne
  exact absurd he hne

theorem deletedShaped_trans {a b c : FS} (h1 : DeletedEntriesShaped a b)
    (h2 : DeletedEntriesShaped b c) : DeletedEntriesShaped a c := by
  intro e he hne
  by_cases hb : e ∈ b.entries
  · exact h2 e hb hne
  · exact h1 e he hb

theorem deletedShaped_writeFile (fs : FS) (p : FPath) :
    DeletedEntriesShaped fs (fs.writeFile p) := by
  intro e he hne
  exact absurd (mem_writeFile_of_mem he) hne

theorem deletedShaped_removeFile (fs : FS) (p : FPath) (day hour : String)
    (hd : validDate day = true) (hh : isHourFolderName hour = true)
    (hp : [day, hour] <+: p) : DeletedEntriesShaped fs (fs.removeFile p) := by
  intro e he hne
  by_cases hep : e.1 = p
  · exact ⟨day, hour, hd, hh, hep ▸ hp⟩
  · exact absurd (mem_removeFile.mpr ⟨he, hep⟩) hne

theorem deletedShaped_removeTree (fs : FS) (day hour : String)
    (hd : validDate day = true) (hh : isHourFolderName hour = true) :
    DeletedEntriesShaped fs (fs.removeTree [day, hour]) := by
  intro e he hne
  by_cases hep : [day, hour] <+: e.1
  · exact ⟨day, hour, hd, hh, hep⟩
  · exact absurd (mem_removeTree.mpr ⟨he, hep⟩) hne

theorem deletedShaped_archive (fs : FS) (enc : String → String → Bool) (day hour : String)
    (hd : validDate day = true) (hh : isHourFolderName hour = true) :
    DeletedEntriesShaped fs (archive_hour fs enc day hour).fs := by
  cases h1 : fs.pathExists [day, hour]
  · rw [archive_hour_of_missing h1]
    exact deletedShaped_refl fs
  · cases h2 : ((fs.childNames [day, hour]).filter isPngName).isEmpty
    · rw [archive_hour_of_nonempty h1 h2]
      have s1 : DeletedEntriesShaped fs
          ((fs.writeFile [day, hour, "filelist.txt"]).writeFile [day, hour, "chapters.txt"]) :=
        deletedShaped_trans (deletedShaped_writeFile _ _) (deletedShaped_writeFile _ _)
      have s2 : DeletedEntriesShaped fs
          (if enc day hour then
            ((fs.writeFile [day, hour, "filelist.txt"]).writeFile
              [day, hour, "chapters.txt"]).writeFile (videoPath day hour)
          else
            (fs.writeFile [day, hour, "filelist.txt"]).writeFile [day, hour, "chapters.txt"]) := by
        cases henc : enc day hour
        · rw [if_neg (by simp [henc])]
          exact s1
        · rw [if_pos rfl]
          exact deletedShaped_trans s1 (deletedShaped_writeFile _ _)
      exact deletedShaped_trans (deletedShaped_trans s2
        (deletedShaped_removeFile _ _ day hour hd hh ⟨["filelist.txt"], rfl⟩))
        (deletedShaped_removeFile _ _ day hour hd hh ⟨["chapters.txt"], rfl⟩)
    · rw [archive_hour_of_empty h1 h2]
      exact deletedShaped_refl fs

theorem deletedShaped_processHour (fs : FS) (enc : String → String → Bool)
    (day hour : String) (hd : validDate day = true) (hh : isHourFolderName hour = true) :
    DeletedEntriesShaped fs (processHour fs enc day hour).1 := by
  by_cases hvid : fs.pathExists (videoPath day hour) = true
  · simp only [processHour, hvid, if_true]
    exact deletedShaped_removeTree fs day hour hd hh
  · have hv : fs.pathExists (videoPath day hour) = false := by
      cases hfs : fs.pathExists (videoPath day hour)
      · rfl
      · exact absurd hfs hvid
    by_cases hok : (archive_hour fs enc day hour).ok = true
    · simp only [processHour, hv, Bool.false_eq_true, if_false, hok, if_true]
      exact deletedShaped_trans (deletedShaped_archive fs enc day hour hd hh)
        (deletedShaped_removeTree _ day hour hd hh)
    · have ho : (archive_hour fs enc day hour).ok = false := by
        cases hfs : (archive_hour fs enc day hour).ok
        · rfl
        · exact absurd hfs hok
      simp only [processHour, hv, ho, Bool.false_eq_true, if_false]
      exact deletedShaped_archive fs enc day hour hd hh

theorem selectToCleanup_subset {sortedHours : List String} {b : Bool} {cur : String}
    {limit : Nat} {x : String} (hx : x ∈ selectToCleanup sortedHours b cur limit) :
    x ∈ sortedHours := by
  simp only [selectToCleanup] at hx
  split at hx
  · split at hx
    · split at hx
      · exact absurd hx (List.not_mem_nil _)
      · exact List.mem_of_mem_filter (List.mem_of_mem_take hx)
    · exact absurd hx (List.not_mem_nil _)
  · exact hx

theorem hourName_of_mem_sorted {fs : FS} {day x : String}
    (hx : x ∈ ((fs.childNames [day]).filter
      (fun h => fs.isDirAt [day, h] && isHourFolderName h)).insertionSort pyStrLe) :
    isHourFolderName x = true := by
  have hmem := (List.perm_insertionSort pyStrLe _).mem_iff.mp hx
  have hprop := List.of_mem_filter hmem
  rw [Bool.and_eq_true] at hprop
  exact hprop.2

theorem deletedShaped_foldl (f : FS → String → FS × List Ev) :
    ∀ (l : List String), (∀ fs x, x ∈ l → DeletedEntriesShaped fs (f fs x).1) →
      ∀ (fs : FS) (evs : List Ev),
        DeletedEntriesShaped fs ((l.foldl (accumStep f) (fs, evs)).1) := by
  intro l
  induction l with
  | nil => intro _ fs evs; exact deletedShaped_refl fs
  | cons x t ih =>
    intro hf fs evs
    rw [List.foldl_cons]
    have hstep : accumStep f (fs, evs) x = ((f fs x).1, evs ++ (f fs x).2) := rfl
    rw [hstep]
    exact deletedShaped_trans (hf fs x (List.mem_cons_self _ _))
      (ih (fun s y hy => hf s y (List.mem_cons_of_mem _ hy)) _ _)

theorem deletedShaped_processDay (fs : FS) (enc : String → String → Bool)
    (todayStr currentHour : String) (limit : Nat) (day : String) :
    DeletedEntriesShaped fs (processDay fs enc todayStr currentHour limit day).1 := by
  simp only [processDay]
  split
  next hcond =>
    have hvd : validDate day = true := by
      rw [Bool.and_eq_true] at hcond
      exact hcond.2
    split
    · exact deletedShaped_refl fs
    · refine deletedShaped_foldl _ _ ?_ fs []
      intro s x hx
      exact deletedShaped_processHour s enc day x hvd
        (hourName_of_mem_sorted (selectToCleanup_subset hx))
  next => exact deletedShaped_refl fs

/-! ### Claim C10, amended -/

/-- C10, amended: every entry the retention pass deletes lies below some
`root/<day>/<hour>` path where `<day>` parses as a date and `<hour>` is a two-digit
digit string — either the whole bucket directory (with its contents), or the
compactor's temporary `filelist.txt` / `chapters.txt` inside such a bucket.  In
particular day-level `.mp4` artifacts, root-level entries, and anything not below a
valid bucket path are never deleted. -/
theorem c10_amended (fs : FS) (enc : String → String → Bool)
    (todayStr currentHour : String) (limit : Nat) (e : FPath × Bool)
    (hin : e ∈ fs.entries)
    (hout : e ∉ (cleanup_hour_folders fs enc todayStr currentHour limit).1.entries) :
    ∃ day hour, validDate day = true ∧ isHourFolderName hour = true ∧
      [day, hour] <+: e.1 := by
  have hds : DeletedEntriesShaped fs (cleanup_hour_folders fs enc todayStr currentHour limit).1 := by
    unfold cleanup_hour_folders
    exact deletedShaped_foldl _ _
      (fun s x _ => deletedShaped_processDay s enc todayStr currentHour limit x) fs []
  exact hds e hin hout

/-- C10, witness: the temporary-file deletion instance, shaped as the amended claim
requires (it lies below the valid bucket path 2024-01-01/05). -/
theorem c10_witness :
    ((["2024-01-01", "05", "filelist.txt"], false) ∈ fsC10.entries) ∧
    ∃ day hour, validDate day = true ∧ isHourFolderName hour = true ∧
      [day, hour] <+: ["2024-01-01", "05", "filelist.txt"] :=
  ⟨by decide, c10_amended fsC10 (fun _ _ => false) "2024-01-02" "10" 1
    (["2024-01-01", "05", "filelist.txt"], false) (by decide) (by decide)⟩

/-! ### Order properties of the sort comparison -/

theorem strLtb_nil_right : ∀ l : List Char, strLtb l [] = false := by
  intro l
  cases l <;> rfl

theorem strLtb_total : ∀ l1 l2 : List Char, strLtb l1 l2 = false ∨ strLtb l2 l1 = false
  | [], [] => Or.inl rfl
  | [], _ :: _ => Or.inr rfl
  | _ :: _, [] => Or.inl rfl
  | a :: as, b :: bs => by
    rcases lt_trichotomy a b with h | h | h
    · right
      simp only [strLtb]
      rw [if_neg (lt_asymm h), if_pos h]
    · subst h
      have := strLtb_total as bs
      simpa only [strLtb, if_neg (lt_irrefl a)] using this
    · left
      simp only [strLtb]
      rw [if_neg (lt_asymm h), if_pos h]

theorem strLtb_false_trans : ∀ l1 l2 l3 : List Char,
    strLtb l2 l1 = false → strLtb l3 l2 = false → strLtb l3 l1 = false
  | [], _, l3, _, _ => strLtb_nil_right l3
  | _ :: _, [], _, h1, _ => by cases h1
  | _ :: _, _ :: _, [], _, h2 => by cases h2
  | a :: as, b :: bs, c :: cs, h1, h2 => by
    have hba : ¬ b < a := by
      intro h
      simp only [strLtb, if_pos h] at h1
      exact Bool.noConfusion h1
    have hcb : ¬ c < b := by
      intro h
      simp only [strLtb, if_pos h] at h2
      exact Bool.noConfusion h2
    have hab : a ≤ b := not_lt.mp hba
    have hbc : b ≤ c := not_lt.mp hcb
    have hca : ¬ c < a := not_lt.mpr (le_trans hab hbc)
    by_cases hac : a < c
    · simp only [strLtb]
      rw [if_neg hca, if_pos hac]
    · have hac2 : a = c := le_antisymm (le_trans hab hbc) (not_lt.mp hac)
      have hb : b = a := le_antisymm (hac2 ▸ hbc) hab
      have h1t : strLtb bs as = false := by
        rw [hb] at h1
        simpa only [strLtb, if_neg (lt_irrefl a)] using h1
      have h2t : strLtb cs bs = false := by
        rw [← hac2, hb] at h2
        simpa only [strLtb, if_neg (lt_irrefl a)] using h2
      simp only [strLtb, if_neg hca, if_neg hac]
      exact strLtb_false_trans as bs cs h1t h2t

theorem strLtb_false_antisymm : ∀ l1 l2 : List Char,
    strLtb l1 l2 = false → strLtb l2 l1 = false → l1 = l2
  | [], [], _, _ => rfl
  | [], _ :: _, h1, _ => by cases h1
  | _ :: _, [], _, h2 => by cases h2
  | a :: as, b :: bs, h1, h2 => by
    by_cases hab : a < b
    · simp only [strLtb, if_pos hab] at h1
      exact Bool.noConfusion h1
    · by_cases hba : b < a
      · simp only [strLtb, if_pos hba] at h2
        exact Bool.noConfusion h2
      · simp only [strLtb, if_neg hab, if_neg hba] at h1
        simp only [strLtb, if_neg hba, if_neg hab] at h2
        have heq : a = b := le_antisymm (le_of_not_lt hba) (le_of_not_lt hab)
        rw [heq, strLtb_false_antisymm as bs h1 h2]

theorem pyStrLe_total (a b : String) : pyStrLe a b ∨ pyStrLe b a :=
  strLtb_total b.data a.data

theorem pyStrLe_trans (a b c : String) (h1 : pyStrLe a b) (h2 : pyStrLe b c) :
    pyStrLe a c :=
  strLtb_false_trans a.data b.data c.data h1 h2

theorem pyStrLe_antisymm (a b : String) (h1 : pyStrLe a b) (h2 : pyStrLe b a) : a = b := by
  have hd : b.data = a.data := strLtb_false_antisymm b.data a.data h1 h2
  exact (congrArg String.mk hd).symm

/-! ### Claim C9 -/

/-- C9: the chapter manifest is a function of the bucket's frame set alone — any two
directory listings that are permutations of each other (the same unchanged frame set
read twice) produce byte-for-byte identical chapter lists, because the compactor sorts
the listing first.  The artifact path is a function of the bucket id alone by
definition of `output_file`, so both runs overwrite the same path. -/
theorem c9_manifest_deterministic (l1 l2 : List String) (fps : ℚ) (hperm : l1.Perm l2) :
    chapterManifest l1 fps = chapterManifest l2 fps := by
  haveI htot : IsTotal String pyStrLe := ⟨pyStrLe_total⟩
  haveI htr : IsTrans String pyStrLe := ⟨pyStrLe_trans⟩
  haveI has : IsAntisymm String pyStrLe := ⟨pyStrLe_antisymm⟩
  unfold chapterManifest
  have hp : ((l1.filter isPngName).insertionSort pyStrLe).Perm
      ((l2.filter isPngName).insertionSort pyStrLe) :=
    ((List.perm_insertionSort pyStrLe _).trans (hperm.filter isPngName)).trans
      (List.perm_insertionSort pyStrLe _).symm
  have hs1 := List.sorted_insertionSort pyStrLe (l1.filter isPngName)
  have hs2 := List.sorted_insertionSort pyStrLe (l2.filter isPngName)
  congr 1
  exact List.eq_of_perm_of_sorted hp hs1 hs2

/-- C9, witness: two listings of the same two frames in opposite order yield the same
manifest. -/
theorem c9_witness :
    chapterManifest ["1704103200500000.png", "1704103200000000.png"] 2
      = chapterManifest ["1704103200000000.png", "1704103200500000.png"] 2 :=
  c9_manifest_deterministic _ _ 2 (by decide)

/-! ### Claim C7, amended -/

theorem buildChapters_titles (l : List String) (fd : ℚ) :
    (buildChapters l fd).map Chapter.title = l.map chapterTitle := by
  simp only [buildChapters, List.map_map]
  conv_rhs => rw [← List.enum_map_snd l, List.map_map]
  rfl

/-- C7, amended: compaction never aborts a bucket over a malformed frame name and never
drops a file from the manifest — the manifest carries exactly one chapter per `.png`
file, in sorted order; a file whose name fails to parse gets the title
`InvalidTimestamp`, and all other frames are processed normally (their titles derived
from their encoded instants). -/
theorem c7_amended (files : List String) (fps : ℚ) :
    (chapterManifest files fps).map Chapter.title
      = ((files.filter isPngName).insertionSort pyStrLe).map chapterTitle ∧
    (∀ f : String, parseTimestamp (splitextBase f.data) = none →
      chapterTitle f = "InvalidTimestamp") := by
  constructor
  · exact buildChapters_titles _ _
  · intro f hf
    unfold chapterTitle
    rw [hf]

/-- C7, witness: a concrete malformed name parses to `none` and is titled
`InvalidTimestamp`. -/
theorem c7_witness :
    parseTimestamp (splitextBase ("badname.png".data)) = none ∧
    chapterTitle "badname.png" = "InvalidTimestamp" :=
  ⟨by decide, (c7_amended [] 1).2 "badname.png" (by decide)⟩

/-! ### Decimal digit lemmas (for claim C3) -/

theorem natDigitsAux_congr (n : Nat) : ∀ f1 f2 : Nat, n < f1 → n < f2 →
    natDigitsAux f1 n = natDigitsAux f2 n := by
  induction n using Nat.strong_induction_on with
  | _ n ih =>
    intro f1 f2 h1 h2
    cases f1 with
    | zero => exact absurd h1 (Nat.not_lt_zero n)
    | succ f1 =>
      cases f2 with
      | zero => exact absurd h2 (Nat.not_lt_zero n)
      | succ f2 =>
        simp only [natDigitsAux]
        by_cases h10 : n < 10
        · rw [if_pos h10, if_pos h10]
        · rw [if_neg h10, if_neg h10]
          have hdiv : n / 10 < n := Nat.div_lt_self (by omega) (by omega)
          rw [ih (n / 10) hdiv f1 f2 (by omega) (by omega)]

theorem natDigits_eq (n : Nat) :
    natDigits n = if n < 10 then [n] else natDigits (n / 10) ++ [n % 10] := by
  by_cases h10 : n < 10
  · rw [if_pos h10]
    show natDigitsAux (n + 1) n = [n]
    simp only [natDigitsAux, if_pos h10]
  · rw [if_neg h10]
    show natDigitsAux (n + 1) n = natDigitsAux (n / 10 + 1) (n / 10) ++ [n % 10]
    conv_lhs => simp only [natDigitsAux, if_neg h10]
    rw [natDigitsAux_congr (n / 10) n (n / 10 + 1)
      (Nat.div_lt_self (by omega) (by omega)) (Nat.lt_succ_self _)]

theorem digitsVal_append_single (l : List Nat) (d : Nat) :
    digitsVal (l ++ [d]) = 10 * digitsVal l + d := by
  induction l with
  | nil => simp [digitsVal]
  | cons c t ih =>
    rw [List.cons_append]
    show c * 10 ^ (t ++ [d]).length + digitsVal (t ++ [d])
      = 10 * (c * 10 ^ t.length + digitsVal t) + d
    rw [ih, List.length_append]
    simp only [List.length_cons, List.length_nil]
    ring

theorem digitsVal_natDigits (n : Nat) : digitsVal (natDigits n) = n := by
  induction n using Nat.strong_induction_on with
  | _ n ih =>
    rw [natDigits_eq]
    by_cases h10 : n < 10
    · rw [if_pos h10]
      simp [digitsVal]
    · rw [if_neg h10, digitsVal_append_single,
        ih (n / 10) (Nat.div_lt_self (by omega) (by omega))]
      omega

theorem natDigits_lt_ten (n : Nat) : ∀ d ∈ natDigits n, d < 10 := by
  induction n using Nat.strong_induction_on with
  | _ n ih =>
    rw [natDigits_eq]
    by_cases h10 : n < 10
    · rw [if_pos h10]
      intro d hd
      simp at hd
      omega
    · rw [if_neg h10]
      intro d hd
      rcases List.mem_append.mp hd with hd | hd
      · exact ih (n / 10) (Nat.div_lt_self (by omega) (by omega)) d hd
      · simp at hd
        omega

theorem digitsVal_lt (l : List Nat) (h : ∀ d ∈ l, d < 10) :
    digitsVal l < 10 ^ l.length := by
  induction l with
  | nil => simp [digitsVal]
  | cons c t ih =>
    simp only [digitsVal, List.length_cons]
    have hc : c < 10 := h c (List.mem_cons_self _ _)
    have ht := ih (fun d hd => h d (List.mem_cons_of_mem _ hd))
    calc c * 10 ^ t.length + digitsVal t
        < c * 10 ^ t.length + 10 ^ t.length := Nat.add_lt_add_left ht _
      _ = (c + 1) * 10 ^ t.length := by ring
      _ ≤ 10 * 10 ^ t.length := Nat.mul_le_mul_right _ (by omega)
      _ = 10 ^ (t.length + 1) := by ring

theorem natDigits_length_le (k n : Nat) (hk : 1 ≤ k) (hn : n < 10 ^ k) :
    (natDigits n).length ≤ k := by
  induction n using Nat.strong_induction_on generalizing k with
  | _ n ih =>
    rw [natDigits_eq]
    by_cases h10 : n < 10
    · rw [if_pos h10]
      simpa using hk
    · rw [if_neg h10, List.length_append]
      have hk2 : 2 ≤ k := by
        by_contra hc
        push_neg at hc
        interval_cases k
        norm_num at hn
        omega
      have hdiv : n / 10 < 10 ^ (k - 1) := by
        rw [Nat.div_lt_iff_lt_mul (by omega)]
        calc n < 10 ^ k := hn
          _ = 10 ^ (k - 1) * 10 := by
            rw [← pow_succ]
            congr 1
            omega
      have := ih (n / 10) (Nat.div_lt_self (by omega) (by omega)) (k - 1) (by omega) hdiv
      simp only [List.length_cons, List.length_nil]
      omega

theorem list_lt_of_digitsVal_lt :
    ∀ (l1 l2 : List Nat), (∀ d ∈ l1, d < 10) → (∀ d ∈ l2, d < 10) →
      l1.length = l2.length → digitsVal l1 < digitsVal l2 → List.lt l1 l2
  | [], [], _, _, _, hv => absurd hv (lt_irrefl 0)
  | [], _ :: _, _, _, hlen, _ => by simp at hlen
  | _ :: _, [], _, _, hlen, _ => by simp at hlen
  | a :: as, b :: bs, h1, h2, hlen, hv => by
    have hlen2 : as.length = bs.length := by simpa using hlen
    rcases Nat.lt_trichotomy a b with hab | hab | hab
    · exact List.lt.head _ _ hab
    · subst hab
      simp only [digitsVal] at hv
      rw [hlen2] at hv
      have hvt : digitsVal as < digitsVal bs := by omega
      exact List.lt.tail (lt_irrefl a) (lt_irrefl a)
        (list_lt_of_digitsVal_lt as bs (fun d hd => h1 d (List.mem_cons_of_mem _ hd))
          (fun d hd => h2 d (List.mem_cons_of_mem _ hd)) hlen2 hvt)
    · exfalso
      have hv2 : digitsVal bs < 10 ^ bs.length :=
        digitsVal_lt bs (fun d hd => h2 d (List.mem_cons_of_mem _ hd))
      have hineq : digitsVal (b :: bs) < digitsVal (a :: as) := by
        simp only [digitsVal]
        calc b * 10 ^ bs.length + digitsVal bs
            < b * 10 ^ bs.length + 10 ^ bs.length := Nat.add_lt_add_left hv2 _
          _ = (b + 1) * 10 ^ bs.length := by ring
          _ ≤ a * 10 ^ bs.length := Nat.mul_le_mul_right _ (by omega)
          _ = a * 10 ^ as.length := by rw [hlen2]
          _ ≤ a * 10 ^ as.length + digitsVal as := Nat.le_add_right _ _
      exact absurd hineq (lt_asymm hv)

theorem digitChar_lt_iff (d1 d2 : Nat) (h1 : d1 < 10) (h2 : d2 < 10) :
    digitChar d1 < digitChar d2 ↔ d1 < d2 := by
  interval_cases d1 <;> interval_cases d2 <;> decide

theorem map_digitChar_lt : ∀ (l1 l2 : List Nat), (∀ d ∈ l1, d < 10) → (∀ d ∈ l2, d < 10) →
    List.lt l1 l2 → List.lt (l1.map digitChar) (l2.map digitChar)
  | [], _ :: _, _, _, _ => List.lt.nil _ _
  | a :: _, b :: _, h1, h2, List.lt.head _ _ hab =>
    List.lt.head _ _ ((digitChar_lt_iff a b (h1 a (List.mem_cons_self _ _))
      (h2 b (List.mem_cons_self _ _))).mpr hab)
  | a :: as, b :: bs, h1, h2, List.lt.tail hna hnb h =>
    List.lt.tail
      (fun hc => hna ((digitChar_lt_iff a b (h1 a (List.mem_cons_self _ _))
        (h2 b (List.mem_cons_self _ _))).mp hc))
      (fun hc => hnb ((digitChar_lt_iff b a (h2 b (List.mem_cons_self _ _))
        (h1 a (List.mem_cons_self _ _))).mp hc))
      (map_digitChar_lt as bs (fun d hd => h1 d (List.mem_cons_of_mem _ hd))
        (fun d hd => h2 d (List.mem_cons_of_mem _ hd)) h)

theorem list_lt_append {α : Type} [LT α] :
    ∀ {l1 l2 : List α} (s t : List α), List.lt l1 l2 → l1.length = l2.length →
      List.lt (l1 ++ s) (l2 ++ t)
  | _, _, _, _, List.lt.nil _ _, hlen => by simp at hlen
  | _, _, s, t, List.lt.head _ _ hab, _ => List.lt.head _ _ hab
  | _, _, s, t, List.lt.tail hna hnb h, hlen =>
    List.lt.tail hna hnb (list_lt_append s t h (by simpa using hlen))

theorem list_lt_append_left {α : Type} [LT α] (hirr : ∀ a : α, ¬ a < a) :
    ∀ (l : List α) {s t : List α}, List.lt s t → List.lt (l ++ s) (l ++ t)
  | [], _, _, h => h
  | c :: cs, _, _, h => List.lt.tail (hirr c) (hirr c) (list_lt_append_left hirr cs h)

theorem digitsVal_padDigits (k : Nat) (l : List Nat) :
    digitsVal (padDigits k l) = digitsVal l := by
  unfold padDigits
  generalize (k - l.length) = j
  induction j with
  | zero => rfl
  | succ j ih =>
    simp only [List.replicate_succ, List.cons_append, digitsVal]
    simpa using ih

theorem padDigits_length (k : Nat) (l : List Nat) (h : l.length ≤ k) :
    (padDigits k l).length = k := by
  simp only [padDigits, List.length_append, List.length_replicate]
  omega

theorem padDigits_lt_ten (k : Nat) (l : List Nat) (h : ∀ d ∈ l, d < 10) :
    ∀ d ∈ padDigits k l, d < 10 := by
  intro d hd
  rcases List.mem_append.mp hd with hd | hd
  · have := List.eq_of_mem_replicate hd
    omega
  · exact h d hd

theorem char_lt_irrefl (c : Char) : ¬ c < c := lt_irrefl c

theorem strLtb_false_of_list_lt : ∀ {l1 l2 : List Char}, List.lt l1 l2 →
    strLtb l2 l1 = false
  | _, _, List.lt.nil _ _ => rfl
  | _, _, List.lt.head as bs hab => by
    simp only [strLtb]
    rw [if_neg (lt_asymm hab), if_pos hab]
  | _, _, List.lt.tail hna hnb h => by
    simp only [strLtb]
    rw [if_neg hnb, if_neg hna]
    exact strLtb_false_of_list_lt h

/-! ### Claim C3 -/

/-- C3, amended: for instants `a < b` (ordered by unix second, then microsecond) whose
unix-second values print with the same number of decimal digits — true for all instants
between 2001-09-09 and 2286-11-20, since the seconds field is not zero-padded — the
generated frame filenames are strictly increasing in lexicographic string order, and
the compactor's sort comparison also keeps name(a) before name(b). -/
theorem c3_names_sorted (s1 m1 s2 m2 : Nat) (hm1 : m1 < 1000000) (hm2 : m2 < 1000000)
    (hlen : (natDigits s1).length = (natDigits s2).length)
    (hord : s1 < s2 ∨ (s1 = s2 ∧ m1 < m2)) :
    frameName s1 m1 < frameName s2 m2 ∧
    pyStrLe (frameName s1 m1) (frameName s2 m2) := by
  have hm1p : m1 < 10 ^ 6 := lt_of_lt_of_eq hm1 (by norm_num)
  have hm2p : m2 < 10 ^ 6 := lt_of_lt_of_eq hm2 (by norm_num)
  have hcore : List.lt (frameName s1 m1).data (frameName s2 m2).data := by
    show List.lt
      ((natDigits s1).map digitChar ++ (padDigits 6 (natDigits m1)).map digitChar
        ++ ".png".data)
      ((natDigits s2).map digitChar ++ (padDigits 6 (natDigits m2)).map digitChar
        ++ ".png".data)
    rw [List.append_assoc, List.append_assoc]
    rcases hord with hlt | ⟨heq, hm⟩
    · refine list_lt_append _ _ ?_ ?_
      · exact map_digitChar_lt _ _ (natDigits_lt_ten s1) (natDigits_lt_ten s2)
          (list_lt_of_digitsVal_lt _ _ (natDigits_lt_ten s1) (natDigits_lt_ten s2) hlen
            (by rw [digitsVal_natDigits, digitsVal_natDigits]; exact hlt))
      · simpa using hlen
    · subst heq
      apply list_lt_append_left char_lt_irrefl
      refine list_lt_append _ _ ?_ ?_
      · refine map_digitChar_lt _ _ (padDigits_lt_ten _ _ (natDigits_lt_ten m1))
          (padDigits_lt_ten _ _ (natDigits_lt_ten m2)) ?_
        refine list_lt_of_digitsVal_lt _ _ (padDigits_lt_ten _ _ (natDigits_lt_ten m1))
          (padDigits_lt_ten _ _ (natDigits_lt_ten m2)) ?_ ?_
        · rw [padDigits_length _ _ (natDigits_length_le 6 m1 (by omega) hm1p),
            padDigits_length _ _ (natDigits_length_le 6 m2 (by omega) hm2p)]
        · rw [digitsVal_padDigits, digitsVal_padDigits, digitsVal_natDigits,
            digitsVal_natDigits]
          exact hm
      · simp only [List.length_map]
        rw [padDigits_length _ _ (natDigits_length_le 6 m1 (by omega) hm1p),
          padDigits_length _ _ (natDigits_length_le 6 m2 (by omega) hm2p)]
  exact ⟨String.lt_iff_toList_lt.mpr ((List.lt_iff_lex_lt _ _).mp hcore),
    strLtb_false_of_list_lt hcore⟩

/-- C3, counterexample: the instants 2001-09-09T01:46:39Z (unix 999999999) and
2001-09-09T01:46:40Z (unix 1000000000) are ordered, yet the first one's 9-digit
filename sorts lexicographically after the second one's 10-digit filename, because the
unix-seconds field is not zero-padded — so the claim fails as universally stated. -/
theorem c3_counterexample :
    (999999999 : Nat) < 1000000000 ∧
    ¬ frameName 999999999 0 < frameName 1000000000 0 :=
  ⟨by omega, fun h => absurd (String.lt_iff_toList_lt.mp h) (by decide)⟩

/-- C3, witness: two frames half a second apart inside the supported era produce
filenames in capture order. -/
theorem c3_witness :
    frameName 1704103200 0 < frameName 1704103200 500000 ∧
    pyStrLe (frameName 1704103200 0) (frameName 1704103200 500000) :=
  c3_names_sorted 1704103200 0 1704103200 500000 (by omega) (by omega) rfl
    (Or.inr ⟨rfl, by omega⟩)

end ChronoCapture
